import Mathlib

/-!
Verification of the Pixtract frame-curation pipeline.

This file gives a shallow embedding, in Lean 4, of the core of the
`pixtract` package: `extract_frames` and `process_video_frames` from
`pixtract/processing.py`, `calculate_sharpness` and
`are_images_duplicates` from `pixtract/utils.py`, and the parallel
fan-out `_process_videos` from `pixtract/main.py`.

External effects (OpenCV decoding, the filesystem, skimage SSIM) are
modelled by explicit environments: a video is a number of decodable
frames plus flags for the failure modes the code handles; image decoding,
the Laplacian-variance focus measure and the SSIM score are oracle
functions on file paths; directory listing order is an oracle reordering
function.  Filesystem mutation and the decoder handle are tracked as
explicit event traces so that dry-run purity and resource discipline can
be stated.  Scores are modelled as rationals standing for the floats of
the source.
-/

/-! ## Frame filenames: Python `f"frame_{n:04d}.jpg"` -/

/-- Decimal digits of `n`, most significant first, as characters
(the digits Python's `format` prints for `n` when `n ≥ 10000`). -/
def digitsMSF (n : Nat) : List Char :=
  if h : n < 10 then [Nat.digitChar n]
  else digitsMSF (n / 10) ++ [Nat.digitChar (n % 10)]
termination_by n
decreasing_by exact Nat.div_lt_self (by omega) (by omega)

/-- The character list Python's `f"{n:04d}"` produces: the decimal digits
of `n`, zero-padded on the left to a minimum width of 4. -/
def pad4 (n : Nat) : List Char :=
  if n < 10000 then
    [Nat.digitChar (n / 1000), Nat.digitChar (n / 100 % 10),
     Nat.digitChar (n / 10 % 10), Nat.digitChar (n % 10)]
  else digitsMSF n

/-- `processing.py` line 62:
`os.path.join(output_folder, f"frame_{frame_count:04d}.jpg")`. -/
def frameFilename (folder : String) (n : Nat) : String :=
  folder ++ "/frame_" ++ String.mk (pad4 n) ++ ".jpg"

/-- Decode a digit-character list back to the number it denotes. -/
def val4 (cs : List Char) : Nat :=
  cs.foldl (fun acc c => acc * 10 + (c.toNat - 48)) 0

theorem digitChar_toNat : ∀ d < 10, (Nat.digitChar d).toNat = 48 + d := by decide

theorem digitChar_lt : ∀ d < 10, ∀ e < 10, d < e → Nat.digitChar d < Nat.digitChar e := by
  decide

theorem foldl_digitsMSF (step : Nat → Char → Nat)
    (hstep : ∀ acc d, d < 10 → step acc (Nat.digitChar d) = acc * 10 + d) :
    ∀ n acc, (digitsMSF n).foldl step acc = acc * 10 ^ (digitsMSF n).length + n := by
  intro n
  induction n using Nat.strong_induction_on with
  | _ n ih =>
    intro acc
    rw [digitsMSF]
    by_cases h : n < 10
    · simp only [h, dite_true, List.foldl_cons, List.foldl_nil, List.length_cons,
        List.length_nil, zero_add, pow_one, hstep acc n h]
    · simp only [h, dite_false, List.foldl_append, List.foldl_cons, List.foldl_nil]
      rw [ih (n / 10) (Nat.div_lt_self (by omega) (by omega)) acc,
        hstep _ (n % 10) (Nat.mod_lt _ (by omega))]
      have hlen : (digitsMSF (n / 10) ++ [Nat.digitChar (n % 10)]).length
          = (digitsMSF (n / 10)).length + 1 := by simp
      rw [hlen, pow_succ]
      have hdm : 10 * (n / 10) + n % 10 = n := Nat.div_add_mod n 10
      calc (acc * 10 ^ (digitsMSF (n / 10)).length + n / 10) * 10 + n % 10
          = acc * (10 ^ (digitsMSF (n / 10)).length * 10) + (10 * (n / 10) + n % 10) := by
            ring
        _ = acc * (10 ^ (digitsMSF (n / 10)).length * 10) + n := by rw [hdm]

theorem val4_pad4 (n : Nat) : val4 (pad4 n) = n := by
  have hstep : ∀ acc d, d < 10 →
      acc * 10 + ((Nat.digitChar d).toNat - 48) = acc * 10 + d := by
    intro acc d hd
    rw [digitChar_toNat d hd]
    omega
  rw [pad4]
  by_cases h : n < 10000
  · simp only [h, if_true, val4, List.foldl_cons, List.foldl_nil]
    rw [hstep _ _ (by omega), hstep _ _ (by omega), hstep _ _ (by omega),
      hstep _ _ (by omega)]
    omega
  · simp only [h, if_false]
    show (digitsMSF n).foldl (fun acc c => acc * 10 + (c.toNat - 48)) 0 = n
    rw [foldl_digitsMSF _ (fun acc d hd => hstep acc d hd) n 0]
    simp

theorem pad4_injective {m n : Nat} (h : pad4 m = pad4 n) : m = n := by
  have := val4_pad4 m
  rw [h, val4_pad4] at this
  omega

theorem frameFilename_injective (folder : String) {m n : Nat}
    (h : frameFilename folder m = frameFilename folder n) : m = n := by
  apply pad4_injective
  have hd : (frameFilename folder m).data = (frameFilename folder n).data := by rw [h]
  simp only [frameFilename, String.data_append] at hd
  exact List.append_cancel_left (List.append_cancel_right hd)

/-! ### Lexicographic (Python string) order on frame filenames -/

theorem lex_append_left {α : Type} {r : α → α → Prop}
    (p : List α) {xs ys : List α} (h : List.Lex r xs ys) :
    List.Lex r (p ++ xs) (p ++ ys) := by
  induction p with
  | nil => simpa using h
  | cons c p ih => exact List.Lex.cons ih

theorem digit_split (m n : Nat) (h : m < n) (hn : n < 10000) :
    m / 1000 < n / 1000
    ∨ (m / 1000 = n / 1000 ∧ (m / 100 % 10 < n / 100 % 10
    ∨ (m / 100 % 10 = n / 100 % 10 ∧ (m / 10 % 10 < n / 10 % 10
    ∨ (m / 10 % 10 = n / 10 % 10 ∧ m % 10 < n % 10))))) := by
  omega

theorem pad4_append_lex {m n : Nat} (s : List Char) (h : m < n) (hn : n < 10000) :
    List.Lex (fun a b : Char => a < b) (pad4 m ++ s) (pad4 n ++ s) := by
  have hm : m < 10000 := by omega
  rw [pad4, pad4, if_pos hm, if_pos hn]
  simp only [List.cons_append, List.nil_append]
  have db : ∀ x : Nat, x < 10000 → x / 1000 < 10 := by omega
  rcases digit_split m n h hn with h3 | ⟨e3, h2 | ⟨e2, h1 | ⟨e1, h0⟩⟩⟩
  · exact List.Lex.rel (digitChar_lt _ (db m hm) _ (db n hn) h3)
  · rw [e3]
    exact List.Lex.cons (List.Lex.rel (digitChar_lt _ (by omega) _ (by omega) h2))
  · rw [e3, e2]
    exact List.Lex.cons (List.Lex.cons
      (List.Lex.rel (digitChar_lt _ (by omega) _ (by omega) h1)))
  · rw [e3, e2, e1]
    exact List.Lex.cons (List.Lex.cons (List.Lex.cons
      (List.Lex.rel (digitChar_lt _ (by omega) _ (by omega) h0))))

/-- Filenames built from indices below 10000 compare, as Python strings,
in the order of their original frame indices. -/
theorem frameFilename_lt (folder : String) {m n : Nat} (h : m < n) (hn : n < 10000) :
    frameFilename folder m < frameFilename folder n := by
  rw [String.lt_iff_toList_lt]
  show List.Lex (· < ·) (frameFilename folder m).data (frameFilename folder n).data
  simp only [frameFilename, String.data_append, List.append_assoc]
  refine lex_append_left _ (lex_append_left _ ?_)
  exact pad4_append_lex _ h hn

theorem frameFilename_le (folder : String) {m n : Nat} (h : m ≤ n) (hn : n < 10000) :
    frameFilename folder m ≤ frameFilename folder n := by
  rcases Nat.lt_or_ge m n with hlt | hge
  · exact le_of_lt (frameFilename_lt folder hlt hn)
  · have : m = n := by omega
    rw [this]

/-! ## Filesystem and decoder events -/

/-- A filesystem mutation performed by the pipeline. -/
inductive FSAction where
  | mkdir (dir : String)
  | writeFrame (path : String)
  | removeFile (path : String)
deriving DecidableEq

/-- An event on the OpenCV decoder handle (`cv2.VideoCapture`). -/
inductive CapEvent where
  | acquire
  | release
deriving DecidableEq

/-- Environment of one video for `extract_frames`: which failure modes
fire, how many frames `cap.read()` yields before returning `ret = False`,
and which frame writes succeed. -/
structure VideoEnv where
  mkdirOk : Bool
  ctorOk : Bool
  opened : Bool
  numFrames : Nat
  writeOk : Nat → Bool

/-- Result of `extract_frames`: the returned count plus the traces of
filesystem mutations and decoder-handle events. -/
structure ExtractResult where
  saved : Nat
  acts : List FSAction
  cap : List CapEvent

/-- The `while True: cap.read()` loop of `extract_frames`
(`processing.py` lines 48-75), processing original frame indices
`0, 1, ..., total-1` in order: indices divisible by `frame_interval` are
written (or merely counted under dry run). -/
def extractLoop (frame_interval : Nat) (folder : String) (dry_run : Bool)
    (writeOk : Nat → Bool) : Nat → Nat × List FSAction
  | 0 => (0, [])
  | total + 1 =>
    let r := extractLoop frame_interval folder dry_run writeOk total
    if total % frame_interval = 0 then
      if dry_run then (r.1 + 1, r.2)
      else if writeOk total then
        (r.1 + 1, r.2 ++ [FSAction.writeFrame (frameFilename folder total)])
      else r
    else r

/-- `processing.py` lines 9-79, `extract_frames`: create the output
directory (unless dry run), open the video, read frames, save every
`frame_interval`-th one, release the capture.  A `makedirs` failure, a
`VideoCapture` constructor exception, or `not cap.isOpened()` each return
a zero count early. -/
def extract_frames (v : VideoEnv) (output_folder : String) (frame_interval : Nat)
    (dry_run : Bool) : ExtractResult :=
  if dry_run = false ∧ v.mkdirOk = false then ⟨0, [], []⟩
  else
    let mk : List FSAction := if dry_run then [] else [FSAction.mkdir output_folder]
    if v.ctorOk = false then ⟨0, mk, []⟩
    else if v.opened = false then ⟨0, mk, [CapEvent.acquire]⟩
    else
      let l := extractLoop frame_interval output_folder dry_run v.writeOk v.numFrames
      ⟨l.1, mk ++ l.2, [CapEvent.acquire, CapEvent.release]⟩

/-- The frame files present on disk after a trace of actions that only
creates files (directory creation adds no frame file). -/
def writtenFiles (acts : List FSAction) : List String :=
  acts.filterMap fun a =>
    match a with
    | FSAction.writeFrame p => some p
    | _ => none

theorem extractLoop_dry_acts (k : Nat) (folder : String) (w : Nat → Bool) (total : Nat) :
    (extractLoop k folder true w total).2 = [] := by
  induction total with
  | zero => rfl
  | succ total ih =>
    rw [extractLoop]
    by_cases h : total % k = 0 <;> simp [h, ih]

theorem extractLoop_count (k : Nat) (folder : String) (dry : Bool) (w : Nat → Bool)
    (total : Nat) :
    (extractLoop k folder dry w total).1
      = ((List.range total).filter (fun i => decide (i % k = 0) && (dry || w i))).length := by
  induction total with
  | zero => rfl
  | succ total ih =>
    rw [extractLoop, List.range_succ, List.filter_append, List.length_append]
    cases dry with
    | true =>
      by_cases h : total % k = 0 <;> simp [h, ih]
    | false =>
      by_cases h : total % k = 0
      · by_cases hw : w total <;> simp [h, hw, ih]
      · simp [h, ih]

theorem extractLoop_files (k : Nat) (folder : String) (w : Nat → Bool) (total : Nat) :
    writtenFiles (extractLoop k folder false w total).2
      = ((List.range total).filter (fun i => decide (i % k = 0) && w i)).map
          (frameFilename folder) := by
  induction total with
  | zero => rfl
  | succ total ih =>
    rw [extractLoop, List.range_succ, List.filter_append, List.map_append]
    by_cases h : total % k = 0
    · by_cases hw : w total
      · simp [h, hw, writtenFiles, List.filterMap_append] at ih ⊢
        exact ih
      · simp [h, hw, ih]
    · simp [h, ih]

/-- Counting multiples of `k` below `total` gives `⌈total / k⌉`. -/
theorem count_multiples (k total : Nat) (hk : 1 ≤ k) :
    ((List.range total).filter (fun i => decide (i % k = 0))).length
      = (total + k - 1) / k := by
  induction total with
  | zero =>
    simp [Nat.div_eq_of_lt (show k - 1 < k by omega)]
  | succ total ih =>
    rw [List.range_succ, List.filter_append, List.length_append, ih]
    have hsucc : total + 1 + k - 1 = (total + k - 1) + 1 := by omega
    rw [hsucc, Nat.succ_div]
    have hdvd : (k ∣ total + k - 1 + 1) ↔ (k ∣ total) := by
      have heq : total + k - 1 + 1 = total + k := by omega
      rw [heq]
      exact Nat.dvd_add_self_right
    by_cases h : total % k = 0
    · rw [if_pos (hdvd.mpr (Nat.dvd_of_mod_eq_zero h))]
      simp [h]
    · rw [if_neg (fun hx => h (Nat.mod_eq_zero_of_dvd (hdvd.mp hx)))]
      simp [h]

theorem writtenFiles_nodup (v : VideoEnv) (out : String) (k : Nat) (dry : Bool) :
    (writtenFiles (extract_frames v out k dry).acts).Nodup := by
  rw [extract_frames]
  by_cases h0 : dry = false ∧ v.mkdirOk = false
  · simp [h0, writtenFiles]
  · simp only [h0, if_false]
    by_cases h1 : v.ctorOk = false
    · cases dry <;> simp [h1, writtenFiles]
    · simp only [h1, if_false]
      by_cases h2 : v.opened = false
      · cases dry <;> simp [h1, h2, writtenFiles]
      · simp only [h2, if_false]
        cases dry
        · simp only [Bool.false_eq_true, if_false, writtenFiles, List.filterMap_append]
          show (writtenFiles [FSAction.mkdir out] ++
            writtenFiles (extractLoop k out false v.writeOk v.numFrames).2).Nodup
          rw [extractLoop_files]
          simp only [writtenFiles, List.filterMap, List.nil_append]
          exact List.Nodup.map_on
            (fun a _ b _ h => frameFilename_injective out h)
            ((List.nodup_range _).filter _)
        · simp [extractLoop_dry_acts, writtenFiles]

/-! ## `pixtract/utils.py` -/

/-- Oracle for image files on disk: whether `cv2.imread` decodes the file
(and no exception occurs), the Laplacian variance of its grayscale
version, and the post-resize grayscale SSIM score of a pair of files.
Scores are rationals standing for the source's floats. -/
structure ImgEnv where
  ok : String → Bool
  lapVar : String → ℚ
  ssim : String → String → ℚ

/-- `utils.py` lines 7-28, `calculate_sharpness`: the Laplacian variance
of the grayscale image, or `0.0` when the file cannot be read or any
error occurs. -/
def calculate_sharpness (e : ImgEnv) (image_path : String) : ℚ :=
  if e.ok image_path then e.lapVar image_path else 0

/-- `utils.py` lines 30-69, `are_images_duplicates`: `False` when either
image cannot be read (or an error occurs), otherwise whether the SSIM
score is at least the threshold. -/
def are_images_duplicates (e : ImgEnv) (image_path1 image_path2 : String)
    (duplicate_threshold : ℚ) : Bool :=
  if e.ok image_path1 = false then false
  else if e.ok image_path2 = false then false
  else decide (duplicate_threshold ≤ e.ssim image_path1 image_path2)

/-! ## `pixtract/processing.py`: `process_video_frames` -/

/-- Environment of one `process_video_frames` job: the video, the image
oracles, whether each of the three `os.listdir` calls succeeds, the
(arbitrary) order in which `os.listdir` and Python `set` iteration
present elements, and which `os.remove` calls succeed. -/
structure ProcEnv where
  video : VideoEnv
  img : ImgEnv
  lsOk1 : Bool
  lsOk2 : Bool
  lsOk3 : Bool
  order1 : List String → List String
  order2 : List String → List String
  order3 : List String → List String
  removeOk : String → Bool

/-- The blur-filtering loop, `processing.py` lines 126-136: for each
listed file, if its sharpness is strictly below the threshold, attempt to
delete it, counting successful deletions.  Returns the disk contents
after the loop, the count of removed frames, and the delete actions. -/
def blurStage (e : ProcEnv) (sharpness_threshold : ℚ) :
    List String → List String → List String × Nat × List FSAction
  | [], disk => (disk, 0, [])
  | f :: fs, disk =>
    if calculate_sharpness e.img f < sharpness_threshold then
      if e.removeOk f then
        let r := blurStage e sharpness_threshold fs (disk.erase f)
        (r.1, r.2.1 + 1, FSAction.removeFile f :: r.2.2)
      else blurStage e sharpness_threshold fs disk
    else blurStage e sharpness_threshold fs disk

/-- Delete, from the disk, each listed file whose deletion succeeds
(`os.remove` loop over a set of filenames). -/
def removeListIf (p : String → Bool) : List String → List String → List String
  | [], disk => disk
  | f :: fs, disk => removeListIf p fs (if p f then disk.erase f else disk)

/-- One step of the duplicate-detection pair loop, `processing.py`
lines 159-164: skip the pair if the `j`-th frame is already marked,
otherwise mark it when `are_images_duplicates` holds. -/
def dupStep (dupFn : String → String → Bool) (frames : List String)
    (acc : List String) (ij : Nat × Nat) : List String :=
  if frames.getD ij.2 "" ∈ acc then acc
  else if dupFn (frames.getD ij.1 "") (frames.getD ij.2 "") then
    acc ++ [frames.getD ij.2 ""]
  else acc

/-- All index pairs `(i, j)` with `i < j < n`, in the order the nested
`for i in range(n): for j in range(i+1, n)` loops visit them. -/
def pairList (n : Nat) : List (Nat × Nat) :=
  (List.range n).flatMap fun i =>
    ((List.range n).filter fun j => decide (i < j)).map fun j => (i, j)

/-- The removal set `to_remove` computed by the pair loop,
`processing.py` lines 158-164, as the list of marked filenames in
insertion order. -/
def dupPass (dupFn : String → String → Bool) (frames : List String) : List String :=
  (pairList frames.length).foldl (dupStep dupFn frames) []

/-- The sorted surviving-frame list the duplicate stage iterates over
(`remaining_frames` after `sort()`, `processing.py` lines 142-143). -/
def dupRemaining (e : ProcEnv) (disk : List String) : List String :=
  List.insertionSort (fun a b : String => a ≤ b) (e.order2 disk)

/-- The duplicate-elimination stage, `processing.py` lines 138-172: list
and sort the surviving frames; if more than one remains, run the pair
loop to build the removal set, then delete its members; the reported
count is the size of the removal set (even if a deletion fails). -/
def dupStage (e : ProcEnv) (duplicate_threshold : ℚ) (disk : List String) :
    List String × Nat × List FSAction :=
  let rem := dupRemaining e disk
  if rem.length > 1 then
    let tr := dupPass (fun a b => are_images_duplicates e.img a b duplicate_threshold) rem
    (removeListIf e.removeOk (e.order3 tr) disk, tr.length,
      ((e.order3 tr).filter e.removeOk).map FSAction.removeFile)
  else (disk, 0, [])

/-- `os.path.basename`. -/
def basename (p : String) : String := (p.splitOn "/").getLastD ""

/-- The summary dictionary `process_video_frames` returns.  `failed` is
true only for the `"status": "failed"` dictionaries built by the
scheduler when a worker raises (`main.py` lines 115-124); none of the
dictionaries built by `process_video_frames` itself set it. -/
structure Summary where
  video : String
  extracted : Nat
  blurry_removed : Nat
  dup_removed : Nat
  final_count : Nat
  output_folder : String
  error : Option String
  failed : Bool
deriving DecidableEq

/-- Result of one `process_video_frames` run: the summary, the frame
files left on disk, and the filesystem actions performed. -/
structure ProcResult where
  summary : Summary
  disk : List String
  acts : List FSAction
deriving DecidableEq

/-- `processing.py` lines 81-191, `process_video_frames`: extract, then
blur-filter, then duplicate-eliminate, returning the summary dictionary.
Early returns: a zero extraction count (line 99), and `OSError` from
either `os.listdir` call (lines 114 and 144). -/
def process_video_frames (e : ProcEnv) (video_path output_folder : String)
    (sharpness_threshold duplicate_threshold : ℚ) (dry_run : Bool)
    (frame_interval : Nat) : ProcResult :=
  let ext := extract_frames e.video output_folder frame_interval dry_run
  let disk0 := writtenFiles ext.acts
  if ext.saved = 0 then
    ⟨⟨basename video_path, 0, 0, 0, 0, output_folder, none, false⟩, disk0, ext.acts⟩
  else if dry_run = false ∧ e.lsOk1 = false then
    ⟨⟨basename video_path, ext.saved, 0, 0, ext.saved, output_folder,
      some "Failed to list files for blurriness check", false⟩, disk0, ext.acts⟩
  else
    let frame_files := if dry_run then [] else e.order1 disk0
    let blur := blurStage e sharpness_threshold frame_files disk0
    if dry_run = false ∧ e.lsOk2 = false then
      ⟨⟨basename video_path, ext.saved, blur.2.1, 0, ext.saved - blur.2.1,
        output_folder, some "Failed to list files for duplicate check", false⟩,
        blur.1, ext.acts ++ blur.2.2⟩
    else
      let dup := if dry_run then (blur.1, 0, ([] : List FSAction))
        else dupStage e duplicate_threshold blur.1
      let fin := if dry_run then ext.saved - blur.2.1 - dup.2.1
        else if e.lsOk3 then dup.1.length else 0
      ⟨⟨basename video_path, ext.saved, blur.2.1, dup.2.1, fin, output_folder,
        none, false⟩, dup.1, ext.acts ++ blur.2.2 ++ dup.2.2⟩

/-! ## `pixtract/main.py`: the scheduler -/

/-- The immutable parameter set shared by all jobs of a batch
(`processing_params` in `main.py`, lines 191-197). -/
structure BatchParams where
  sharpness_threshold : ℚ
  duplicate_threshold : ℚ
  dry_run : Bool
  frame_interval : Nat

/-- Environment of a batch: the per-video environments, which output
folder each video gets, and whether the worker for a video raises an
exception that escapes `process_video_frames`. -/
structure BatchEnv where
  perVideo : String → ProcEnv
  outFolderOf : String → String
  raises : String → Bool

/-- `main.py` lines 76-91, `_process_single_video`. -/
def _process_single_video (be : BatchEnv) (ps : BatchParams) (video_file : String) :
    ProcResult :=
  process_video_frames (be.perVideo video_file) video_file (be.outFolderOf video_file)
    ps.sharpness_threshold ps.duplicate_threshold ps.dry_run ps.frame_interval

/-- The failure dictionary the scheduler appends when a worker raises
(`main.py` lines 115-124). -/
def failedSummary (video_file msg : String) : Summary :=
  ⟨video_file, 0, 0, 0, 0, "N/A", some msg, true⟩

/-- The summary the scheduler collects for one video: the worker's result
or, if the worker raised, the failure dictionary. -/
def jobSummary (be : BatchEnv) (ps : BatchParams) (video_file : String) : Summary :=
  if be.raises video_file then failedSummary video_file "exception"
  else (_process_single_video be ps video_file).summary

/-- `main.py` lines 93-126, `_process_videos`: one independent job per
video; summaries are collected in completion order, which is an arbitrary
permutation of the submission order. -/
def _process_videos (be : BatchEnv) (ps : BatchParams)
    (completion_order : List String) : List Summary :=
  completion_order.map (jobSummary be ps)

/-! ## Characterization lemmas -/

theorem mem_foldl_dupStep (d : String → String → Bool) (f : List String)
    (ps : List (Nat × Nat)) (acc : List String) (x : String) :
    x ∈ ps.foldl (dupStep d f) acc
      ↔ x ∈ acc ∨ ∃ p ∈ ps, f.getD p.2 "" = x
          ∧ d (f.getD p.1 "") (f.getD p.2 "") = true := by
  induction ps generalizing acc with
  | nil => simp
  | cons p ps ih =>
    rw [List.foldl_cons, ih, List.exists_mem_cons_iff]
    unfold dupStep
    by_cases h1 : f.getD p.2 "" ∈ acc
    · rw [if_pos h1]
      constructor
      · rintro (hx | hx)
        · exact Or.inl hx
        · exact Or.inr (Or.inr hx)
      · rintro (hx | ⟨hEq, _⟩ | hx)
        · exact Or.inl hx
        · exact Or.inl (hEq ▸ h1)
        · exact Or.inr hx
    · rw [if_neg h1]
      by_cases h2 : d (f.getD p.1 "") (f.getD p.2 "") = true
      · rw [if_pos h2]
        simp only [List.mem_append, List.mem_singleton]
        constructor
        · rintro ((hx | hx) | hx)
          · exact Or.inl hx
          · exact Or.inr (Or.inl ⟨hx.symm, h2⟩)
          · exact Or.inr (Or.inr hx)
        · rintro (hx | ⟨hEq, _⟩ | hx)
          · exact Or.inl (Or.inl hx)
          · exact Or.inl (Or.inr hEq.symm)
          · exact Or.inr hx
      · rw [if_neg h2]
        constructor
        · rintro (hx | hx)
          · exact Or.inl hx
          · exact Or.inr (Or.inr hx)
        · rintro (hx | ⟨_, hd⟩ | hx)
          · exact Or.inl hx
          · exact absurd hd h2
          · exact Or.inr hx

theorem mem_pairList (n : Nat) (p : Nat × Nat) :
    p ∈ pairList n ↔ p.1 < p.2 ∧ p.2 < n := by
  rcases p with ⟨i, j⟩
  simp only [pairList, List.mem_flatMap, List.mem_map, List.mem_filter, List.mem_range,
    decide_eq_true_eq]
  constructor
  · rintro ⟨a, ha, b, ⟨hb, hab⟩, hEq⟩
    rcases Prod.mk.injEq .. ▸ hEq with ⟨h1, h2⟩
    exact ⟨h1 ▸ h2 ▸ hab, h2 ▸ hb⟩
  · rintro ⟨hij, hj⟩
    exact ⟨i, by omega, j, ⟨hj, hij⟩, rfl⟩

/-- Membership in the removal set: exactly the frames at a position `j`
for which some earlier position `i` compares as a duplicate. -/
theorem mem_dupPass (d : String → String → Bool) (frames : List String) (x : String) :
    x ∈ dupPass d frames
      ↔ ∃ j, j < frames.length ∧ frames.getD j "" = x
          ∧ ∃ i, i < j ∧ d (frames.getD i "") (frames.getD j "") = true := by
  rw [dupPass, mem_foldl_dupStep]
  simp only [List.mem_nil_iff, false_or]
  constructor
  · rintro ⟨p, hp, hEq, hd⟩
    rcases (mem_pairList _ p).mp hp with ⟨h1, h2⟩
    exact ⟨p.2, h2, hEq, p.1, h1, hd⟩
  · rintro ⟨j, hj, hEq, i, hij, hd⟩
    exact ⟨(i, j), (mem_pairList _ (i, j)).mpr ⟨hij, hj⟩, hEq, hd⟩

theorem foldl_dupStep_nodup (d : String → String → Bool) (f : List String)
    (ps : List (Nat × Nat)) (acc : List String) (hacc : acc.Nodup) :
    (ps.foldl (dupStep d f) acc).Nodup := by
  induction ps generalizing acc with
  | nil => exact hacc
  | cons p ps ih =>
    rw [List.foldl_cons]
    apply ih
    unfold dupStep
    by_cases h1 : f.getD p.2 "" ∈ acc
    · rw [if_pos h1]; exact hacc
    · rw [if_neg h1]
      by_cases h2 : d (f.getD p.1 "") (f.getD p.2 "") = true
      · rw [if_pos h2]
        refine List.Nodup.append hacc (List.nodup_singleton _) ?_
        intro a ha hb
        rw [List.mem_singleton] at hb
        subst hb
        exact h1 ha
      · rw [if_neg h2]; exact hacc

theorem dupPass_nodup (d : String → String → Bool) (frames : List String) :
    (dupPass d frames).Nodup :=
  foldl_dupStep_nodup d frames _ [] List.nodup_nil

/-- The removal loop deletes, order-independently, exactly the listed
files whose deletion succeeds. -/
theorem removeListIf_eq_filter (p : String → Bool) (fs disk : List String)
    (hd : disk.Nodup) :
    removeListIf p fs disk = disk.filter fun x => !(decide (x ∈ fs) && p x) := by
  induction fs generalizing disk with
  | nil => simp [removeListIf]
  | cons f fs ih =>
    rw [removeListIf]
    by_cases hp : p f = true
    · rw [if_pos hp, ih _ (hd.erase f), List.Nodup.erase_eq_filter hd, List.filter_filter]
      apply List.filter_congr
      intro x _
      by_cases hxf : x = f
      · subst hxf
        simp [hp]
      · simp only [List.mem_cons, hxf, false_or]
        have : (x != f) = true := by simpa using hxf
        rw [this]
        simp
    · rw [if_neg hp, ih _ hd]
      apply List.filter_congr
      intro x _
      by_cases hxf : x = f
      · subst hxf
        simp [hp]
      · simp [List.mem_cons, hxf]

theorem blurStage_disk_eq (e : ProcEnv) (t : ℚ) (fs disk : List String) :
    (blurStage e t fs disk).1
      = removeListIf (fun f => decide (calculate_sharpness e.img f < t) && e.removeOk f)
          fs disk := by
  induction fs generalizing disk with
  | nil => rfl
  | cons f fs ih =>
    rw [blurStage, removeListIf]
    by_cases h1 : calculate_sharpness e.img f < t
    · by_cases h2 : e.removeOk f = true
      · rw [if_pos h1, if_pos h2, if_pos (by simp [h1, h2])]
        exact ih _
      · rw [if_pos h1, if_neg h2, if_neg (by simp [h2])]
        exact ih _
    · rw [if_neg h1, if_neg (by simp [h1])]
      exact ih _

/-- Membership in the disk after the blur stage. -/
theorem mem_blurStage (e : ProcEnv) (t : ℚ) (fs disk : List String)
    (hd : disk.Nodup) (x : String) :
    x ∈ (blurStage e t fs disk).1
      ↔ x ∈ disk ∧ ¬(x ∈ fs ∧ calculate_sharpness e.img x < t ∧ e.removeOk x = true) := by
  have hbool : ∀ (A B : Prop) [Decidable A] [Decidable B] (c : Bool),
      ((!(decide A && (decide B && c))) = true) ↔ ¬(A ∧ B ∧ c = true) := by
    intro A B _ _ c
    by_cases hA : A <;> by_cases hB : B <;> cases c <;> simp [hA, hB]
  rw [blurStage_disk_eq, removeListIf_eq_filter _ _ _ hd, List.mem_filter,
    hbool (x ∈ fs) (calculate_sharpness e.img x < t) (e.removeOk x)]

theorem mem_removeListIf (p : String → Bool) (fs disk : List String)
    (hd : disk.Nodup) (x : String) :
    x ∈ removeListIf p fs disk ↔ x ∈ disk ∧ ¬(x ∈ fs ∧ p x = true) := by
  have hbool : ∀ (A : Prop) [Decidable A] (c : Bool),
      ((!(decide A && c)) = true) ↔ ¬(A ∧ c = true) := by
    intro A _ c
    by_cases hA : A <;> cases c <;> simp [hA]
  rw [removeListIf_eq_filter _ _ _ hd, List.mem_filter, hbool (x ∈ fs) (p x)]

theorem removeListIf_nodup (p : String → Bool) (fs disk : List String)
    (hd : disk.Nodup) : (removeListIf p fs disk).Nodup := by
  rw [removeListIf_eq_filter _ _ _ hd]
  exact hd.filter _

theorem blurStage_nodup (e : ProcEnv) (t : ℚ) (fs disk : List String)
    (hd : disk.Nodup) : (blurStage e t fs disk).1.Nodup := by
  rw [blurStage_disk_eq]
  exact removeListIf_nodup _ _ _ hd

theorem dupRemaining_sorted (e : ProcEnv) (disk : List String) :
    (dupRemaining e disk).Sorted (fun a b : String => a ≤ b) :=
  List.sorted_insertionSort _ _

theorem dupRemaining_perm (e : ProcEnv) (disk : List String)
    (h2 : (e.order2 disk).Perm disk) : (dupRemaining e disk).Perm disk :=
  (List.perm_insertionSort _ _).trans h2

/-- Two sorted lists that are permutations of each other are equal. -/
theorem sorted_string_unique {l1 l2 : List String} (hp : l1.Perm l2)
    (h1 : l1.Sorted (fun a b : String => a ≤ b))
    (h2 : l2.Sorted (fun a b : String => a ≤ b)) : l1 = l2 :=
  List.eq_of_perm_of_sorted hp h1 h2

/-! ### Path lemmas for `extract_frames` -/

theorem extract_dry_acts (v : VideoEnv) (out : String) (k : Nat) :
    (extract_frames v out k true).acts = [] := by
  rw [extract_frames]
  split_ifs <;> simp_all [extractLoop_dry_acts]

theorem extract_saved_eq (v : VideoEnv) (out : String) (k : Nat) (dry : Bool)
    (hc : v.ctorOk = true) (ho : v.opened = true)
    (hmk : dry = true ∨ v.mkdirOk = true) (hw : ∀ i, v.writeOk i = true) :
    (extract_frames v out k dry).saved
      = ((List.range v.numFrames).filter fun i => decide (i % k = 0)).length := by
  rw [extract_frames]
  rw [if_neg (by rcases hmk with h | h <;> simp [h]), if_neg (by simp [hc]),
    if_neg (by simp [ho])]
  show (extractLoop k out dry v.writeOk v.numFrames).1 = _
  rw [extractLoop_count]
  apply congrArg
  apply List.filter_congr
  intro i _
  rw [hw i]
  cases dry <;> simp

theorem extract_saved_zero_of_unopened (v : VideoEnv) (out : String) (k : Nat)
    (dry : Bool) (ho : v.opened = false) : (extract_frames v out k dry).saved = 0 := by
  rw [extract_frames]
  split_ifs with h1 h2 h3 <;> simp_all

theorem extract_files_empty_of_unopened (v : VideoEnv) (out : String) (k : Nat)
    (dry : Bool) (ho : v.opened = false) :
    writtenFiles (extract_frames v out k dry).acts = [] := by
  rw [extract_frames]
  split_ifs with h1 h2 h3 <;> cases dry <;> simp_all [writtenFiles]

theorem extract_cap_opened (v : VideoEnv) (out : String) (k : Nat) (dry : Bool)
    (hc : v.ctorOk = true) (ho : v.opened = true)
    (hmk : dry = true ∨ v.mkdirOk = true) :
    (extract_frames v out k dry).cap = [CapEvent.acquire, CapEvent.release] := by
  rw [extract_frames]
  rw [if_neg (by rcases hmk with h | h <;> simp [h]), if_neg (by simp [hc]),
    if_neg (by simp [ho])]

theorem extract_cap_unopened (v : VideoEnv) (out : String) (k : Nat) (dry : Bool)
    (hc : v.ctorOk = true) (ho : v.opened = false)
    (hmk : dry = true ∨ v.mkdirOk = true) :
    (extract_frames v out k dry).cap = [CapEvent.acquire] := by
  rw [extract_frames]
  rw [if_neg (by rcases hmk with h | h <;> simp [h]), if_neg (by simp [hc]), if_pos ho]

theorem extract_cap_ctor_fail (v : VideoEnv) (out : String) (k : Nat) (dry : Bool)
    (hc : v.ctorOk = false) : (extract_frames v out k dry).cap = [] := by
  rw [extract_frames]
  split_ifs with h1 h2 h3 <;> simp_all

/-! ### Path lemmas for `process_video_frames` -/

theorem process_extracted (e : ProcEnv) (v out : String) (t1 t2 : ℚ) (dry : Bool)
    (k : Nat) :
    (process_video_frames e v out t1 t2 dry k).summary.extracted
      = (extract_frames e.video out k dry).saved := by
  simp only [process_video_frames]
  split_ifs with h0 h1 h2 <;> first | rfl | exact h0.symm

theorem process_summary_of_saved_zero (e : ProcEnv) (v out : String) (t1 t2 : ℚ)
    (dry : Bool) (k : Nat) (h0 : (extract_frames e.video out k dry).saved = 0) :
    (process_video_frames e v out t1 t2 dry k).summary
      = ⟨basename v, 0, 0, 0, 0, out, none, false⟩ := by
  simp only [process_video_frames]
  rw [if_pos h0]

theorem process_dry_eq (e : ProcEnv) (v out : String) (t1 t2 : ℚ) (k : Nat) :
    process_video_frames e v out t1 t2 true k
      = ⟨⟨basename v, (extract_frames e.video out k true).saved, 0, 0,
          (extract_frames e.video out k true).saved, out, none, false⟩, [], []⟩ := by
  simp only [process_video_frames]
  rw [extract_dry_acts]
  split_ifs with h0 h1 h2
  · simp [h0, writtenFiles]
  · exact absurd h1.1 (by simp)
  · exact absurd h2.1 (by simp)
  · simp [writtenFiles, blurStage]

theorem getD_of_lt (l : List String) (i : Nat) (h : i < l.length) :
    l.getD i "" = l[i] := by
  rw [List.getD_eq_getElem?_getD, List.getElem?_eq_getElem h, Option.getD_some]

theorem dupPass_short (d : String → String → Bool) (frames : List String)
    (h : frames.length ≤ 1) : dupPass d frames = [] := by
  rw [List.eq_nil_iff_forall_not_mem]
  intro x hx
  rcases (mem_dupPass d frames x).mp hx with ⟨j, hj, _, i, hij, _⟩
  omega

/-! ## Concrete environments used by witnesses and counterexamples -/

/-- A healthy video of `n` decodable frames. -/
def okVideo (n : Nat) : VideoEnv := ⟨true, true, true, n, fun _ => true⟩

/-- A video whose `cv2.VideoCapture` constructs but does not open. -/
def badVideo : VideoEnv := ⟨true, true, false, 0, fun _ => true⟩

/-- Image oracle: everything decodes, sharpness 5, SSIM 1. -/
def testImg : ImgEnv := ⟨fun _ => true, fun _ => 5, fun _ _ => 1⟩

/-- Image oracle on which no file decodes. -/
def undecImg : ImgEnv := ⟨fun _ => false, fun _ => 5, fun _ _ => 1⟩

/-- A fully healthy five-frame processing environment. -/
def testEnv : ProcEnv := ⟨okVideo 5, testImg, true, true, true, id, id, id, fun _ => true⟩

/-- A processing environment whose video cannot be opened. -/
def unopenEnv : ProcEnv := ⟨badVideo, testImg, true, true, true, id, id, id, fun _ => true⟩

/-- A processing environment whose frame files cannot be decoded. -/
def undecEnv : ProcEnv := ⟨okVideo 1, undecImg, true, true, true, id, id, id, fun _ => true⟩

/-- A batch whose every video is unopenable, no worker raises. -/
def unopenBatch : BatchEnv := ⟨fun _ => unopenEnv, fun _ => "out", fun _ => false⟩

/-- Default-like parameters. -/
def testParams : BatchParams := ⟨100, 1, false, 1⟩

/-! ## Claim C4: decoder-handle release -/

/-- C4 counterexample: for a video that constructs a capture but fails
`isOpened()`, the sampler acquires the decoder handle and returns without
releasing it, refuting "released on every path (including the path where
the video cannot be opened)". -/
theorem C4_counterexample :
    CapEvent.acquire ∈ (extract_frames badVideo "out" 1 false).cap
    ∧ CapEvent.release ∉ (extract_frames badVideo "out" 1 false).cap := by
  decide

/-- C4 (amended): the decoder handle is acquired and released when the
video opens; when the `VideoCapture` constructor itself raises, no handle
is acquired; but on the `isOpened()`-failure path the sampler returns
with the handle acquired and never released. -/
theorem C4_release_paths (v : VideoEnv) (out : String) (k : Nat) (dry : Bool) :
    (v.ctorOk = true → v.opened = true → (dry = true ∨ v.mkdirOk = true) →
      (extract_frames v out k dry).cap = [CapEvent.acquire, CapEvent.release])
    ∧ (v.ctorOk = true → v.opened = false → (dry = true ∨ v.mkdirOk = true) →
      (extract_frames v out k dry).cap = [CapEvent.acquire])
    ∧ (v.ctorOk = false → (extract_frames v out k dry).cap = []) :=
  ⟨fun hc ho hmk => extract_cap_opened v out k dry hc ho hmk,
   fun hc ho hmk => extract_cap_unopened v out k dry hc ho hmk,
   fun hc => extract_cap_ctor_fail v out k dry hc⟩

/-- Witness for C4: on a healthy five-frame video the handle is acquired
and then released. -/
theorem C4_release_paths_witness :
    (extract_frames (okVideo 5) "out" 1 false).cap
      = [CapEvent.acquire, CapEvent.release] :=
  (C4_release_paths (okVideo 5) "out" 1 false).1 rfl rfl (Or.inr rfl)

/-! ## Claim C6: undecodable frames in the sharpness stage -/

/-- C6 counterexample: with sharpness threshold 0, an undecodable frame
(focus measure 0.0) is *kept*, because deletion requires the measure to
be strictly below the threshold; this refutes "always rejected ... for
every threshold value the filter accepts, including threshold 0". -/
theorem C6_counterexample :
    calculate_sharpness undecImg "out/frame_0000.jpg" = 0
    ∧ (blurStage undecEnv 0 ["out/frame_0000.jpg"] ["out/frame_0000.jpg"]).1
        = ["out/frame_0000.jpg"] := by
  constructor
  · rfl
  · decide

/-- C6 (amended): an undecodable frame file has focus measure exactly
0.0, is deleted by the sharpness filter for every *positive* threshold
(when its deletion succeeds), and does not abort the stage: every other
frame whose measure is not below the threshold survives.  At threshold 0
(or below) the undecodable frame is kept. -/
theorem C6_undecodable_frame (e : ProcEnv) (f : String) (t : ℚ)
    (fs disk : List String) (hok : e.img.ok f = false) (hd : disk.Nodup)
    (hf : f ∈ fs) (hrm : e.removeOk f = true) :
    calculate_sharpness e.img f = 0
    ∧ (0 < t → f ∉ (blurStage e t fs disk).1)
    ∧ (t ≤ 0 → f ∈ disk → f ∈ (blurStage e t fs disk).1)
    ∧ (∀ g, g ∈ disk → ¬(calculate_sharpness e.img g < t) →
        g ∈ (blurStage e t fs disk).1) := by
  have hsharp : calculate_sharpness e.img f = 0 := by
    rw [calculate_sharpness, hok]
    simp
  refine ⟨hsharp, ?_, ?_, ?_⟩
  · intro ht hmem
    rw [mem_blurStage _ _ _ _ hd] at hmem
    exact hmem.2 ⟨hf, by rw [hsharp]; exact ht, hrm⟩
  · intro ht hfd
    rw [mem_blurStage _ _ _ _ hd]
    refine ⟨hfd, fun hc => ?_⟩
    rw [hsharp] at hc
    exact absurd (lt_of_le_of_lt ht hc.2.1) (lt_irrefl t)
  · intro g hg hgs
    rw [mem_blurStage _ _ _ _ hd]
    exact ⟨hg, fun hc => hgs hc.2.1⟩

/-- Witness for C6: a concrete undecodable frame is removed at threshold
1 and kept at threshold 0. -/
theorem C6_undecodable_frame_witness :
    calculate_sharpness undecEnv.img "f" = 0
    ∧ (0 < (1 : ℚ) → "f" ∉ (blurStage undecEnv 1 ["f"] ["f"]).1)
    ∧ ((1 : ℚ) ≤ 0 → "f" ∈ (["f"] : List String) →
        "f" ∈ (blurStage undecEnv 1 ["f"] ["f"]).1)
    ∧ (∀ g, g ∈ (["f"] : List String) →
        ¬(calculate_sharpness undecEnv.img g < 1) →
        g ∈ (blurStage undecEnv 1 ["f"] ["f"]).1) :=
  C6_undecodable_frame undecEnv "f" 1 ["f"] ["f"] rfl (by decide) (by decide) rfl

/-! ## Claim C7: sharpness-filter monotonicity -/

/-- C7: the sharpness filter is monotone in its threshold — the kept set
at the lower threshold contains the kept set at the higher one — and a
frame is kept exactly when its focus measure is not strictly below the
threshold (deletions succeeding). -/
theorem C7_blur_monotone (e : ProcEnv) (t1 t2 : ℚ) (fs disk : List String)
    (x : String) (hd : disk.Nodup) (hlt : t1 < t2)
    (hperm : fs.Perm disk) (hrm : ∀ f, e.removeOk f = true) :
    ((blurStage e t2 fs disk).1 ⊆ (blurStage e t1 fs disk).1)
    ∧ (x ∈ (blurStage e t1 fs disk).1
        ↔ x ∈ disk ∧ ¬(calculate_sharpness e.img x < t1)) := by
  constructor
  · intro y hy
    rw [mem_blurStage _ _ _ _ hd] at hy ⊢
    exact ⟨hy.1, fun hc => hy.2 ⟨hc.1, lt_trans hc.2.1 hlt, hc.2.2⟩⟩
  · rw [mem_blurStage _ _ _ _ hd]
    constructor
    · rintro ⟨hmem, h⟩
      exact ⟨hmem, fun hlt1 => h ⟨hperm.mem_iff.mpr hmem, hlt1, hrm x⟩⟩
    · rintro ⟨hmem, h⟩
      exact ⟨hmem, fun hc => h hc.2.1⟩

/-- Witness for C7 at thresholds 0 < 10 on a one-frame disk: the frame
(sharpness 5) is kept at threshold 0. -/
theorem C7_blur_monotone_witness :
    ((blurStage testEnv 10 ["f"] ["f"]).1 ⊆ (blurStage testEnv 0 ["f"] ["f"]).1)
    ∧ ("f" ∈ (blurStage testEnv 0 ["f"] ["f"]).1
        ↔ "f" ∈ (["f"] : List String) ∧ ¬(calculate_sharpness testEnv.img "f" < 0)) :=
  C7_blur_monotone testEnv 0 10 ["f"] ["f"] "f" (by decide) (by decide)
    (List.Perm.refl _) (fun _ => rfl)

/-! ## Claim C8: dry run -/

/-- C8: a dry run performs no filesystem action at all; its reported
extracted count is `⌈F / k⌉` for `F` decodable original frames and
stride `k ≥ 1` — the number of indices in `{0, k, 2k, …}` below `F` —
which equals what a real run (all writes succeeding) reports; and its
blurry-removed and duplicate-removed counts are reported as zero. -/
theorem C8_dry_run (e : ProcEnv) (v out : String) (t1 t2 : ℚ) (k : Nat)
    (hk : 1 ≤ k) (hc : e.video.ctorOk = true) (ho : e.video.opened = true)
    (hmk : e.video.mkdirOk = true) (hw : ∀ i, e.video.writeOk i = true) :
    (process_video_frames e v out t1 t2 true k).acts = []
    ∧ (process_video_frames e v out t1 t2 true k).summary.extracted
        = (e.video.numFrames + k - 1) / k
    ∧ (process_video_frames e v out t1 t2 true k).summary.blurry_removed = 0
    ∧ (process_video_frames e v out t1 t2 true k).summary.dup_removed = 0
    ∧ (process_video_frames e v out t1 t2 false k).summary.extracted
        = (process_video_frames e v out t1 t2 true k).summary.extracted := by
  have hdry := process_dry_eq e v out t1 t2 k
  have hsat : (extract_frames e.video out k true).saved
      = (e.video.numFrames + k - 1) / k := by
    rw [extract_saved_eq e.video out k true hc ho (Or.inl rfl) hw,
      count_multiples _ _ hk]
  have hsaf : (extract_frames e.video out k false).saved
      = (e.video.numFrames + k - 1) / k := by
    rw [extract_saved_eq e.video out k false hc ho (Or.inr hmk) hw,
      count_multiples _ _ hk]
  refine ⟨?_, ?_, ?_, ?_, ?_⟩
  · rw [hdry]
  · rw [hdry]
    exact hsat
  · rw [hdry]
  · rw [hdry]
  · rw [process_extracted, hdry]
    exact hsaf.trans hsat.symm

/-- Witness for C8 on a five-frame video with stride 2: dry run reports
⌈5/2⌉ = 3 extracted frames, zero removals, no filesystem action, and the
real run reports the same extraction count. -/
theorem C8_dry_run_witness :
    (process_video_frames testEnv "v.mp4" "out" 100 1 true 2).acts = []
    ∧ (process_video_frames testEnv "v.mp4" "out" 100 1 true 2).summary.extracted
        = (5 + 2 - 1) / 2
    ∧ (process_video_frames testEnv "v.mp4" "out" 100 1 true 2).summary.blurry_removed = 0
    ∧ (process_video_frames testEnv "v.mp4" "out" 100 1 true 2).summary.dup_removed = 0
    ∧ (process_video_frames testEnv "v.mp4" "out" 100 1 false 2).summary.extracted
        = (process_video_frames testEnv "v.mp4" "out" 100 1 true 2).summary.extracted :=
  C8_dry_run testEnv "v.mp4" "out" 100 1 2 (by decide) rfl rfl rfl (fun _ => rfl)

/-! ## Claim C2: unopenable videos -/

/-- C2 counterexample: for an unopenable video the per-video job's
summary has all counts 0 but is *not* marked as a failure — no
`"status": "failed"` and no error message are set — refuting "a JobResult
marked as a failure". -/
theorem C2_counterexample :
    (jobSummary unopenBatch testParams "bad.mp4").extracted = 0
    ∧ (jobSummary unopenBatch testParams "bad.mp4").final_count = 0
    ∧ (jobSummary unopenBatch testParams "bad.mp4").failed = false
    ∧ (jobSummary unopenBatch testParams "bad.mp4").error = none := by
  decide

/-- C2 (amended): for an unopenable video the sampler persists zero
frames, the per-video job returns a summary with extracted, blurry-
removed, duplicate-removed and final counts all 0 — but not marked as a
failure (the failure marker is only set when a worker raises) — and the
scheduler still processes and reports on every video of the batch. -/
theorem C2_unopenable_video (be : BatchEnv) (ps : BatchParams) (v w : String)
    (completion : List String) (ho : (be.perVideo v).video.opened = false)
    (hr : be.raises v = false) (hw : w ∈ completion) :
    (extract_frames (be.perVideo v).video (be.outFolderOf v)
        ps.frame_interval ps.dry_run).saved = 0
    ∧ writtenFiles (extract_frames (be.perVideo v).video (be.outFolderOf v)
        ps.frame_interval ps.dry_run).acts = []
    ∧ jobSummary be ps v = ⟨basename v, 0, 0, 0, 0, be.outFolderOf v, none, false⟩
    ∧ (_process_videos be ps completion).length = completion.length
    ∧ jobSummary be ps w ∈ _process_videos be ps completion := by
  refine ⟨extract_saved_zero_of_unopened _ _ _ _ ho,
    extract_files_empty_of_unopened _ _ _ _ ho, ?_, ?_, ?_⟩
  · rw [jobSummary, if_neg (by simp [hr]), _process_single_video]
    exact process_summary_of_saved_zero _ _ _ _ _ _ _
      (extract_saved_zero_of_unopened _ _ _ _ ho)
  · rw [_process_videos, List.length_map]
  · rw [_process_videos]
    exact List.mem_map_of_mem _ hw

/-- Witness for C2 on a concrete two-video batch whose first video is
unopenable. -/
theorem C2_unopenable_video_witness :
    (extract_frames (unopenBatch.perVideo "bad.mp4").video
        (unopenBatch.outFolderOf "bad.mp4") testParams.frame_interval
        testParams.dry_run).saved = 0
    ∧ writtenFiles (extract_frames (unopenBatch.perVideo "bad.mp4").video
        (unopenBatch.outFolderOf "bad.mp4") testParams.frame_interval
        testParams.dry_run).acts = []
    ∧ jobSummary unopenBatch testParams "bad.mp4"
        = ⟨basename "bad.mp4", 0, 0, 0, 0, unopenBatch.outFolderOf "bad.mp4", none, false⟩
    ∧ (_process_videos unopenBatch testParams ["bad.mp4", "good.mp4"]).length
        = (["bad.mp4", "good.mp4"] : List String).length
    ∧ jobSummary unopenBatch testParams "good.mp4"
        ∈ _process_videos unopenBatch testParams ["bad.mp4", "good.mp4"] :=
  C2_unopenable_video unopenBatch testParams "bad.mp4" "good.mp4"
    ["bad.mp4", "good.mp4"] rfl rfl (by decide)

/-! ## Claim C1: the duplicate eliminator -/

/-- The Boolean duplicate test the pair loop uses at threshold `t`. -/
def dupFn (e : ProcEnv) (t : ℚ) : String → String → Bool :=
  fun a b => are_images_duplicates e.img a b t

/-- The removal set of the duplicate stage on a given disk. -/
def removalSet (e : ProcEnv) (t : ℚ) (disk : List String) : List String :=
  dupPass (dupFn e t) (dupRemaining e disk)

/-- C1: the duplicate eliminator computes its removal set over the pairs
`(i, j)`, `i < j`, of the sorted frozen frame list — a frame joins the
set exactly when some earlier frame compares as a duplicate of it (the
skip of already-marked `j` only avoids re-comparison) — deletes exactly
the frames of the removal set after the pass (deletions succeeding), and
reports its size as the duplicate-removed count.  When both frames
decode, the pairwise test is "SSIM score at least `t`". -/
theorem C1_duplicate_eliminator (e : ProcEnv) (t : ℚ) (disk : List String)
    (x a b : String) (hd : disk.Nodup) (h3 : ∀ l, (e.order3 l).Perm l)
    (hrm : ∀ f, e.removeOk f = true) (hoa : e.img.ok a = true)
    (hob : e.img.ok b = true) :
    (dupStage e t disk).2.1 = (removalSet e t disk).length
    ∧ (dupStage e t disk).1
        = disk.filter (fun y => !(decide (y ∈ removalSet e t disk)))
    ∧ (x ∈ removalSet e t disk
        ↔ ∃ j, j < (dupRemaining e disk).length
            ∧ (dupRemaining e disk).getD j "" = x
            ∧ ∃ i, i < j ∧ are_images_duplicates e.img
                ((dupRemaining e disk).getD i "")
                ((dupRemaining e disk).getD j "") t = true)
    ∧ are_images_duplicates e.img a b t = decide (t ≤ e.img.ssim a b) := by
  refine ⟨?_, ?_, mem_dupPass _ _ _, by rw [are_images_duplicates, hoa, hob]; simp⟩
  · simp only [dupStage]
    by_cases hlen : (dupRemaining e disk).length > 1
    · rw [if_pos hlen]
      rfl
    · rw [if_neg hlen, removalSet, dupPass_short _ _ (by omega)]
      rfl
  · simp only [dupStage]
    by_cases hlen : (dupRemaining e disk).length > 1
    · rw [if_pos hlen]
      show removeListIf e.removeOk (e.order3 (removalSet e t disk)) disk = _
      rw [removeListIf_eq_filter _ _ _ hd]
      apply List.filter_congr
      intro y _
      rw [hrm y, Bool.and_true,
        decide_eq_decide.mpr (h3 (removalSet e t disk)).mem_iff]
    · rw [if_neg hlen]
      show disk = _
      rw [removalSet, dupPass_short _ _ (by omega)]
      simp

/-- Witness for C1 on a one-frame disk: the removal set is empty, the
disk survives unchanged, and the count is 0. -/
theorem C1_duplicate_eliminator_witness :
    (dupStage testEnv 1 ["f"]).2.1 = (removalSet testEnv 1 ["f"]).length
    ∧ (dupStage testEnv 1 ["f"]).1
        = (["f"] : List String).filter
            (fun y => !(decide (y ∈ removalSet testEnv 1 ["f"])))
    ∧ ("f" ∈ removalSet testEnv 1 ["f"]
        ↔ ∃ j, j < (dupRemaining testEnv ["f"]).length
            ∧ (dupRemaining testEnv ["f"]).getD j "" = "f"
            ∧ ∃ i, i < j ∧ are_images_duplicates testEnv.img
                ((dupRemaining testEnv ["f"]).getD i "")
                ((dupRemaining testEnv ["f"]).getD j "") 1 = true)
    ∧ are_images_duplicates testEnv.img "a" "b" 1
        = decide ((1 : ℚ) ≤ testEnv.img.ssim "a" "b") :=
  C1_duplicate_eliminator testEnv 1 ["f"] "f" "a" "b" (by decide)
    (fun l => List.Perm.refl l) (fun _ => rfl) rfl rfl

/-! ## Claim C10: the first frame always survives -/

/-- C10: the frame at position 0 of the sorted surviving list is never
added to the removal set, so the duplicate pass always leaves at least
one surviving frame. -/
theorem C10_first_frame_survives (e : ProcEnv) (t : ℚ) (disk : List String)
    (hne : disk ≠ []) (hd : disk.Nodup) (h2 : (e.order2 disk).Perm disk)
    (h3 : ∀ l, (e.order3 l).Perm l) :
    (dupRemaining e disk).getD 0 "" ∉ removalSet e t disk
    ∧ (dupStage e t disk).1 ≠ [] := by
  have hperm : (dupRemaining e disk).Perm disk := dupRemaining_perm e disk h2
  have hlen : 0 < (dupRemaining e disk).length := by
    rw [hperm.length_eq]
    exact List.length_pos.mpr hne
  have hnodup : (dupRemaining e disk).Nodup := hperm.nodup_iff.mpr hd
  have hnot : (dupRemaining e disk).getD 0 "" ∉ removalSet e t disk := by
    intro hmem
    rcases (mem_dupPass _ _ _).mp hmem with ⟨j, hj, hEq, i, hij, _⟩
    rw [getD_of_lt _ _ hj, getD_of_lt _ _ hlen] at hEq
    have : j = 0 := (hnodup.getElem_inj_iff).mp hEq
    omega
  refine ⟨hnot, ?_⟩
  have hmem0 : (dupRemaining e disk).getD 0 "" ∈ disk := by
    rw [getD_of_lt _ _ hlen]
    exact hperm.subset (List.getElem_mem hlen)
  simp only [dupStage]
  by_cases hl : (dupRemaining e disk).length > 1
  · rw [if_pos hl]
    show removeListIf e.removeOk (e.order3 (removalSet e t disk)) disk ≠ []
    apply List.ne_nil_of_mem (a := (dupRemaining e disk).getD 0 "")
    rw [mem_removeListIf _ _ _ hd]
    exact ⟨hmem0, fun hc => hnot ((h3 (removalSet e t disk)).mem_iff.mp hc.1)⟩
  · rw [if_neg hl]
    exact hne

/-- Witness for C10 on a concrete one-frame disk. -/
theorem C10_first_frame_survives_witness :
    (dupRemaining testEnv ["f"]).getD 0 "" ∉ removalSet testEnv 0 ["f"]
    ∧ (dupStage testEnv 0 ["f"]).1 ≠ [] :=
  C10_first_frame_survives testEnv 0 ["f"] (by decide) (by decide)
    (List.Perm.refl _) (fun l => List.Perm.refl l)

/-! ## Claim C3: filename order and the comparison order -/

/-- C3: sorting filenames of the fixed `frame_NNNN.jpg` shape (indices
below 10000, as the 4-digit zero-padding presumes) lexicographically
lists the frames in ascending original-index order — the sorted filename
list is the filename image of the sorted index list — and the list the
duplicate pass iterates over is always sorted in that lexicographic
order. -/
theorem C3_filename_order (folder : String) (idxs : List Nat) (e : ProcEnv)
    (disk : List String) (hb : ∀ i ∈ idxs, i < 10000) :
    List.insertionSort (fun a b : String => a ≤ b) (idxs.map (frameFilename folder))
      = (List.insertionSort (fun a b : Nat => a ≤ b) idxs).map (frameFilename folder)
    ∧ (dupRemaining e disk).Sorted (fun a b : String => a ≤ b) := by
  refine ⟨?_, dupRemaining_sorted e disk⟩
  apply sorted_string_unique
  · exact (List.perm_insertionSort _ _).trans
      (((List.perm_insertionSort _ idxs).map _).symm)
  · exact List.sorted_insertionSort _ _
  · rw [List.Sorted, List.pairwise_map]
    have hs : (List.insertionSort (fun a b : Nat => a ≤ b) idxs).Pairwise
        (fun a b : Nat => a ≤ b) := List.sorted_insertionSort _ _
    refine hs.imp_of_mem ?_
    intro a c ha hc hle
    refine frameFilename_le folder hle (hb c ?_)
    exact (List.perm_insertionSort (fun a b : Nat => a ≤ b) idxs).subset hc

/-- Witness for C3 with indices 2, 0, 1. -/
theorem C3_filename_order_witness :
    List.insertionSort (fun a b : String => a ≤ b)
        (([2, 0, 1] : List Nat).map (frameFilename "out"))
      = (List.insertionSort (fun a b : Nat => a ≤ b) [2, 0, 1]).map
          (frameFilename "out")
    ∧ (dupRemaining testEnv ["b", "a"]).Sorted (fun a b : String => a ≤ b) :=
  C3_filename_order "out" [2, 0, 1] testEnv ["b", "a"] (by decide)

/-! ## Claim C9: determinism -/

theorem blurStage_disk_congr (e1 e2 : ProcEnv) (t : ℚ) (fs1 fs2 disk : List String)
    (himg : e1.img = e2.img) (hrm : e1.removeOk = e2.removeOk)
    (hfs : ∀ y, y ∈ fs1 ↔ y ∈ fs2) (hd : disk.Nodup) :
    (blurStage e1 t fs1 disk).1 = (blurStage e2 t fs2 disk).1 := by
  rw [blurStage_disk_eq, blurStage_disk_eq, removeListIf_eq_filter _ _ _ hd,
    removeListIf_eq_filter _ _ _ hd]
  apply List.filter_congr
  intro y _
  rw [himg, hrm, decide_eq_decide.mpr (hfs y)]

theorem dupStage_disk_congr (e1 e2 : ProcEnv) (t : ℚ) (disk : List String)
    (himg : e1.img = e2.img) (hrm : e1.removeOk = e2.removeOk)
    (h2a : (e1.order2 disk).Perm disk) (h2b : (e2.order2 disk).Perm disk)
    (h3a : ∀ l, (e1.order3 l).Perm l) (h3b : ∀ l, (e2.order3 l).Perm l)
    (hd : disk.Nodup) :
    (dupStage e1 t disk).1 = (dupStage e2 t disk).1 := by
  have hrem : dupRemaining e1 disk = dupRemaining e2 disk :=
    sorted_string_unique
      ((dupRemaining_perm e1 disk h2a).trans (dupRemaining_perm e2 disk h2b).symm)
      (dupRemaining_sorted e1 disk) (dupRemaining_sorted e2 disk)
  have hfn : (fun a b => are_images_duplicates e1.img a b t)
      = fun a b => are_images_duplicates e2.img a b t := by rw [himg]
  simp only [dupStage]
  rw [hrem, hfn]
  by_cases hlen : (dupRemaining e2 disk).length > 1
  · rw [if_pos hlen, if_pos hlen]
    dsimp only
    rw [removeListIf_eq_filter _ _ _ hd, removeListIf_eq_filter _ _ _ hd]
    apply List.filter_congr
    intro y _
    rw [hrm, decide_eq_decide.mpr (((h3a _).mem_iff).trans ((h3b _).mem_iff).symm)]
  · rw [if_neg hlen, if_neg hlen]

/-- The disk left by a real (non-dry) run, branch by branch. -/
theorem process_disk_eq (e : ProcEnv) (v out : String) (t1 t2 : ℚ) (k : Nat) :
    (process_video_frames e v out t1 t2 false k).disk
      = (if (extract_frames e.video out k false).saved = 0 then
          writtenFiles (extract_frames e.video out k false).acts
        else if e.lsOk1 = false then
          writtenFiles (extract_frames e.video out k false).acts
        else if e.lsOk2 = false then
          (blurStage e t1
            (e.order1 (writtenFiles (extract_frames e.video out k false).acts))
            (writtenFiles (extract_frames e.video out k false).acts)).1
        else
          (dupStage e t2 (blurStage e t1
            (e.order1 (writtenFiles (extract_frames e.video out k false).acts))
            (writtenFiles (extract_frames e.video out k false).acts)).1).1) := by
  simp only [process_video_frames]
  by_cases h0 : (extract_frames e.video out k false).saved = 0
  · rw [if_pos h0, if_pos h0]
  · rw [if_neg h0, if_neg h0]
    by_cases h1 : e.lsOk1 = false
    · rw [if_pos (show (True ∧ e.lsOk1 = false) from ⟨trivial, h1⟩), if_pos h1]
    · rw [if_neg (show ¬(True ∧ e.lsOk1 = false) from fun hc => h1 hc.2),
        if_neg h1]
      by_cases h2 : e.lsOk2 = false
      · rw [if_pos (show (True ∧ e.lsOk2 = false) from ⟨trivial, h2⟩), if_pos h2]
        rfl
      · rw [if_neg (show ¬(True ∧ e.lsOk2 = false) from fun hc => h2 hc.2),
          if_neg h2]
        rfl

/-- C9: the per-video pipeline is deterministic.  Two runs that agree on
the video, the image oracles, the failure flags and the deletion oracle
— and differ only in the arbitrary orders `os.listdir` and `set`
iteration produce — leave exactly the same kept-frame files on disk; and
the batch's collected summaries are, for any two completion orders, the
same multiset. -/
theorem C9_determinism (e1 e2 : ProcEnv) (v out : String) (t1 t2 : ℚ) (dry : Bool)
    (k : Nat) (be : BatchEnv) (ps : BatchParams) (c1 c2 : List String)
    (hvid : e1.video = e2.video) (himg : e1.img = e2.img)
    (hls1 : e1.lsOk1 = e2.lsOk1) (hls2 : e1.lsOk2 = e2.lsOk2)
    (hls3 : e1.lsOk3 = e2.lsOk3) (hrm : e1.removeOk = e2.removeOk)
    (ho1a : ∀ l, (e1.order1 l).Perm l) (ho1b : ∀ l, (e2.order1 l).Perm l)
    (ho2a : ∀ l, (e1.order2 l).Perm l) (ho2b : ∀ l, (e2.order2 l).Perm l)
    (ho3a : ∀ l, (e1.order3 l).Perm l) (ho3b : ∀ l, (e2.order3 l).Perm l)
    (hcc : c1.Perm c2) :
    (process_video_frames e1 v out t1 t2 dry k).disk
      = (process_video_frames e2 v out t1 t2 dry k).disk
    ∧ (_process_videos be ps c1).Perm (_process_videos be ps c2) := by
  refine ⟨?_, hcc.map _⟩
  cases dry with
  | true =>
    have d1 := congrArg ProcResult.disk (process_dry_eq e1 v out t1 t2 k)
    have d2 := congrArg ProcResult.disk (process_dry_eq e2 v out t1 t2 k)
    exact d1.trans d2.symm
  | false =>
    have hnd : (writtenFiles (extract_frames e1.video out k false).acts).Nodup :=
      writtenFiles_nodup _ _ _ _
    have hmem1 : ∀ y, y ∈ e1.order1 (writtenFiles
          (extract_frames e1.video out k false).acts)
        ↔ y ∈ e2.order1 (writtenFiles
          (extract_frames e1.video out k false).acts) :=
      fun y => ((ho1a _).mem_iff).trans ((ho1b _).mem_iff).symm
    have hB : (blurStage e1 t1 (e1.order1 (writtenFiles
          (extract_frames e1.video out k false).acts))
          (writtenFiles (extract_frames e1.video out k false).acts)).1
        = (blurStage e2 t1 (e2.order1 (writtenFiles
          (extract_frames e1.video out k false).acts))
          (writtenFiles (extract_frames e1.video out k false).acts)).1 :=
      blurStage_disk_congr e1 e2 t1 _ _ _ himg hrm hmem1 hnd
    rw [process_disk_eq, process_disk_eq, ← hvid, ← hls1, ← hls2]
    by_cases h0 : (extract_frames e1.video out k false).saved = 0
    · rw [if_pos h0, if_pos h0]
    · rw [if_neg h0, if_neg h0]
      by_cases h1 : e1.lsOk1 = false
      · rw [if_pos h1, if_pos h1]
      · rw [if_neg h1, if_neg h1]
        by_cases h2 : e1.lsOk2 = false
        · rw [if_pos h2, if_pos h2]
          exact hB
        · rw [if_neg h2, if_neg h2, hB]
          exact dupStage_disk_congr e1 e2 t2 _ himg hrm (ho2a _) (ho2b _) ho3a ho3b
            (blurStage_nodup _ _ _ _ hnd)

/-- Witness for C9: a run compared against itself on identity orders,
with a two-video completion list against its reversal. -/
theorem C9_determinism_witness :
    (process_video_frames testEnv "v.mp4" "out" 100 1 false 1).disk
      = (process_video_frames testEnv "v.mp4" "out" 100 1 false 1).disk
    ∧ (_process_videos unopenBatch testParams ["a.mp4", "b.mp4"]).Perm
        (_process_videos unopenBatch testParams ["b.mp4", "a.mp4"]) :=
  C9_determinism testEnv testEnv "v.mp4" "out" 100 1 false 1 unopenBatch testParams
    ["a.mp4", "b.mp4"] ["b.mp4", "a.mp4"] rfl rfl rfl rfl rfl rfl
    (fun l => List.Perm.refl l) (fun l => List.Perm.refl l)
    (fun l => List.Perm.refl l) (fun l => List.Perm.refl l)
    (fun l => List.Perm.refl l) (fun l => List.Perm.refl l)
    (List.Perm.swap _ _ _)
